import Mathlib

set_option maxRecDepth 100000

/-!
Shallow embedding of `paddle/operators/reduce_op.cc`: the ReduceOp /
ReduceGradOp shape inferencers, the ReduceOpMaker comment templating
(including its `Replace` string-substitution loop), and the operator
registrations.  Machine integers (`int`, `int64_t`) are modelled as `Int`
(no arithmetic in this file can overflow the source's integer widths:
ranks are at most 7 in every statement and `dim` only ever has a single
addition of a rank applied to it), `std::vector<int64_t>` / `DDim` as
`List Int`, and `std::string` as `List Char`.
-/

namespace ReduceOpCc

/-- Outcome of one `InferShape` call: normal return, a failed
`PADDLE_ENFORCE*` check (which throws, carrying the message), or C++
undefined behavior (an out-of-bounds `std::vector` access). -/
inductive Outcome where
  | ok : Outcome
  | enforceFailed : String → Outcome
  | undefinedBehavior : Outcome
deriving DecidableEq

/-- True exactly when the outcome is a failed `PADDLE_ENFORCE*` check,
i.e. the call raised the framework's validation error. -/
def Outcome.isEnforceFailed : Outcome → Bool
  | Outcome.enforceFailed _ => true
  | _ => false

/-- Observable side effects of an `InferShape` call, in program order:
`Tensor::Resize` on a named variable, and `ctx.ShareLoD(src, dst)`. -/
inductive Effect where
  | resize : String → List Int → Effect
  | shareLoD : String → String → Effect
deriving DecidableEq

/-- Result of an `InferShape` call: its outcome together with the list of
side effects it performed, in order. -/
structure InferResult where
  outcome : Outcome
  effects : List Effect
deriving DecidableEq

/-- The dims a given variable was resized to, if any (first `Resize` on
that variable in the effect trace). -/
def resizedDims (res : InferResult) (v : String) : Option (List Int) :=
  res.effects.findSome? fun e =>
    match e with
    | Effect.resize w dims => if w = v then some dims else none
    | _ => none

/-- Context of a `ReduceOp::InferShape` call: the input variable `X`
(absent, or present with its dims), presence of the output variable
`Out`, and the `dim` / `keep_dim` attributes. -/
structure ForwardCtx where
  inputX : Option (List Int)
  outputOutPresent : Bool
  dim : Int
  keep_dim : Bool
deriving DecidableEq

/-- Negative-index normalization shared by both inferencers
(`if (dim < 0) dim = x_rank + dim;`, reduce_op.cc lines 36 and 69). -/
def normDim (x_rank : Nat) (dim : Int) : Int :=
  if dim < 0 then (x_rank : Int) + dim else dim

/-- Embedding of `ReduceOp::InferShape` (reduce_op.cc lines 27-53).
Checks X and Out bindings, `x_rank <= 6`, normalizes `dim`, checks
`dim < x_rank` (note: the source has no lower-bound check, so a
normalized `dim < 0` reaches `dims_vector[dim]` /
`dims_vector.erase(dims_vector.begin() + dim)` with a negative index —
C++ undefined behavior, modelled by `Outcome.undefinedBehavior`), then
resizes `Out` to the reduced dims and shares LoD from `X` to `Out`
unless the normalized `dim` is 0. -/
def reduceOpInferShape (ctx : ForwardCtx) : InferResult :=
  match ctx.inputX with
  | none => ⟨Outcome.enforceFailed "Input(X) of ReduceOp should not be null.", []⟩
  | some x_dims =>
    if ctx.outputOutPresent = false then
      ⟨Outcome.enforceFailed "Output(Out) of ReduceOp should not be null.", []⟩
    else
      let x_rank := x_dims.length
      if ¬ x_rank ≤ 6 then
        ⟨Outcome.enforceFailed "Tensors with rank at most 6 are supported.", []⟩
      else
        let dim := normDim x_rank ctx.dim
        if ¬ dim < (x_rank : Int) then
          ⟨Outcome.enforceFailed
            "The dim should be in the range [-rank(input), rank(input)).", []⟩
        else if dim < 0 then
          -- negative index into dims_vector: out-of-bounds access
          ⟨Outcome.undefinedBehavior, []⟩
        else
          let d := dim.toNat
          let dims_vector :=
            if ctx.keep_dim || x_rank == 1 then x_dims.set d 1
            else x_dims.eraseIdx d
          ⟨Outcome.ok,
            Effect.resize "Out" dims_vector ::
              (if dim ≠ 0 then [Effect.shareLoD "X" "Out"] else [])⟩

/-- Context of a `ReduceGradOp::InferShape` call: input `X`, presence of
input `Out@GRAD`, presence of the output gradient variable `X@GRAD`
(the `x_grad` pointer), and the attributes.  `keep_dim` is carried even
though the gradient inferencer never reads it. -/
structure GradCtx where
  inputX : Option (List Int)
  outGradPresent : Bool
  xGradPresent : Bool
  dim : Int
  keep_dim : Bool
deriving DecidableEq

/-- Embedding of `ReduceGradOp::InferShape` (reduce_op.cc lines 61-76).
Checks X and Out@GRAD bindings, `x_rank <= 6`, normalizes `dim`, checks
`dim < x_rank`, then — only if the X@GRAD output variable is present —
resizes it to `x_dims`.  No indexing with `dim` happens here, so unlike
the forward pass a negative normalized `dim` causes no UB. -/
def reduceGradOpInferShape (ctx : GradCtx) : InferResult :=
  match ctx.inputX with
  | none => ⟨Outcome.enforceFailed "Input(X) should not be null.", []⟩
  | some x_dims =>
    if ctx.outGradPresent = false then
      ⟨Outcome.enforceFailed "Input(Out@GRAD) should not be null.", []⟩
    else
      let x_rank := x_dims.length
      if ¬ x_rank ≤ 6 then
        ⟨Outcome.enforceFailed "Tensors with rank at most 6 are supported.", []⟩
      else
        let dim := normDim x_rank ctx.dim
        if ¬ dim < (x_rank : Int) then
          ⟨Outcome.enforceFailed
            "The dim should be in the range [-rank(input), rank(input)).", []⟩
        else if ctx.xGradPresent then
          ⟨Outcome.ok, [Effect.resize "X@GRAD" x_dims]⟩
        else
          ⟨Outcome.ok, []⟩

/-- Model of `std::strlen(s.c_str())`: the number of characters before
the first NUL (`'\x00'`).  For a NUL-free string this equals `s.size()`,
but `ReduceOpMaker::Replace` (reduce_op.cc lines 109-110) uses it on
arbitrary `std::string`s, where the two can differ. -/
def cStrlen (s : List Char) : Nat :=
  (s.takeWhile fun c => c ≠ '\x00').length

/-- Index of the first occurrence of `pat` as a contiguous substring of
`s` (smallest `p` with `pat` a prefix of `s.drop p`), or `none`.  This is
`std::string::find(pat)`, which compares by `pat.size()` characters
(NULs included). -/
def firstOccur (pat : List Char) : List Char → Option Nat
  | [] => if pat = [] then some 0 else none
  | c :: t =>
    if pat.isPrefixOf (c :: t) then some 0
    else (firstOccur pat t).map (· + 1)

/-- Model of `std::string::find(pat, start)`: the first occurrence of
`pat` at a position `≥ start`, or `none` (for `npos`).  The two agree at
every call site reachable from `ReduceOpMaker::Replace`, where `start`
never exceeds the string size. -/
def findFrom (s pat : List Char) (start : Nat) : Option Nat :=
  (firstOccur pat (s.drop start)).map (· + start)

/-- True when `pat` occurs as a contiguous substring of `s`. -/
def containsSubstr (pat s : List Char) : Bool :=
  (firstOccur pat s).isSome

/-- Model of `std::string::replace(pos, len, to)` for `pos ≤ s.size()`:
splice `to` over the `len` characters starting at `pos` (clamped to the
end of the string, as in C++). -/
def strReplaceRange (s : List Char) (pos len : Nat) (toStr : List Char) : List Char :=
  s.take pos ++ toStr ++ s.drop (pos + len)

/-- Fuel-indexed embedding of the loop in `ReduceOpMaker::Replace`
(reduce_op.cc lines 111-114).  The loop state is the mutable string
`src` and the current `pos` (`none` for `npos`, which exits the loop).
Each iteration performs `src.replace(pos, len_from, to)` with
`len_from = strlen(from.c_str())` and then searches again from
`pos + len_to` with `len_to = strlen(to.c_str())`.  `none` as a result
means the fuel ran out, i.e. the loop was still running. -/
def replaceLoop (fromStr toStr : List Char) : Nat → List Char → Option Nat → Option (List Char)
  | 0, _, _ => none
  | _ + 1, src, none => some src
  | fuel + 1, src, some pos =>
    let src' := strReplaceRange src pos (cStrlen fromStr) toStr
    replaceLoop fromStr toStr fuel src' (findFrom src' fromStr (pos + cStrlen toStr))

/-- Embedding of `ReduceOpMaker::Replace(src, from, to)`: run the loop
from the initial search `src.find(from)`.  `some r` means the C++ loop
terminates (within `fuel` iterations) leaving `src = r`. -/
def Replace (fuel : Nat) (src fromStr toStr : List Char) : Option (List Char) :=
  replaceLoop fromStr toStr fuel src (findFrom src fromStr 0)

/-- Left-to-right, non-overlapping replace-all, written from the claim's
words: scan `s` from the left; at each match of `pat`, emit `to` and
resume right after the matched characters (so text contributed by `to`
is never rescanned); `pat = []` matches nothing. -/
def replaceAll (pat toStr : List Char) : List Char → List Char
  | [] => []
  | c :: t =>
    if _hpat : pat = [] then c :: t
    else if _hpre : pat.isPrefixOf (c :: t) then
      toStr ++ replaceAll pat toStr ((c :: t).drop pat.length)
    else
      c :: replaceAll pat toStr t
termination_by s => s.length
decreasing_by
  · have hp : 0 < pat.length := List.length_pos.mpr _hpat
    simp only [List.length_drop, List.length_cons]
    omega
  · simp [List.length_cons]

/-- The `"{ReduceOP}"` placeholder string (braces written `\x7b`/`\x7d`). -/
def placeholderOP : List Char := "\x7bReduceOP\x7d".toList

/-- The `"{reduce}"` placeholder string. -/
def placeholderReduce : List Char := "\x7breduce\x7d".toList

/-- The raw comment template assigned to `comment_` in the
`ReduceOpMaker` constructor (reduce_op.cc lines 98-101), a raw string
literal beginning and ending with a newline, with a trailing space at
the end of its first text line. -/
def commentTemplate : List Char :=
  "\n\x7bReduceOP\x7d operator computes the \x7breduce\x7d of input tensor along the given dimension. \nThe result tensor has 1 fewer dimension than the input unless `keep_dim` is true.\n".toList

/-- Embedding of `ReduceOpMaker::SetComment(name, op)` (reduce_op.cc
lines 117-120): `Replace(comment_, "{ReduceOP}", name)` followed by
`Replace(comment_, "{reduce}", op)`.  The fuel `length + 1` always
suffices for these NUL-free arguments (see the termination theorem for
`Replace` below), so the `none` fallbacks (loop still running) are
unreachable at every use in this file. -/
def SetComment (c name op : List Char) : List Char :=
  match Replace (c.length + 1) c placeholderOP name with
  | none => c
  | some c1 =>
    match Replace (c1.length + 1) c1 placeholderReduce op with
    | none => c1
    | some c2 => c2

/-- Observable state of an `OpProtoAndCheckerMaker` after construction,
restricted to what the claims are about: the sequence of strings passed
to `AddComment` (in call order) and the final value of the `comment_`
field.  The `AddInput`/`AddOutput`/`AddAttr` declarations of the maker
are identical across all variants and not modelled.  The proto's
registered description is the argument of the last `AddComment` call. -/
structure MakerState where
  comments : List (List Char)
  comment_ : List Char
deriving DecidableEq

/-- The base `ReduceOpMaker` constructor (reduce_op.cc lines 81-103):
sets `comment_` to the raw template and calls `AddComment(comment_)`
once, before any substitution. -/
def reduceOpMakerBase : MakerState :=
  ⟨[commentTemplate], commentTemplate⟩

/-- Shared shape of the four concrete maker constructors (reduce_op.cc
lines 123-161): run the base constructor, then `SetComment(name, op)`,
then `AddComment(comment_)` a second time. -/
def mkReduceVariantMaker (name op : List Char) : MakerState :=
  ⟨reduceOpMakerBase.comments ++ [SetComment reduceOpMakerBase.comment_ name op],
    SetComment reduceOpMakerBase.comment_ name op⟩

/-- `ReduceSumOpMaker` (lines 123-131). -/
def ReduceSumOpMaker : MakerState := mkReduceVariantMaker "ReduceSum".toList "sum".toList

/-- `ReduceMeanOpMaker` (lines 133-141). -/
def ReduceMeanOpMaker : MakerState := mkReduceVariantMaker "ReduceMean".toList "mean".toList

/-- `ReduceMaxOpMaker` (lines 143-151). -/
def ReduceMaxOpMaker : MakerState := mkReduceVariantMaker "ReduceMax".toList "max".toList

/-- `ReduceMinOpMaker` (lines 153-161).  Defined in the source but, note,
never passed to any `REGISTER_OP` invocation. -/
def ReduceMinOpMaker : MakerState := mkReduceVariantMaker "ReduceMin".toList "min".toList

/-- One `REGISTER_OP(op_type, op_class, op_maker_class, grad_op_type,
grad_op_class)` invocation, restricted to the registered name, gradient
name and the maker that supplies the proto (both op classes are
`ReduceOp`/`ReduceGradOp` in all four registrations). -/
structure RegisteredOp where
  opType : String
  gradOpType : String
  maker : MakerState
deriving DecidableEq

/-- The four `REGISTER_OP` invocations (reduce_op.cc lines 168-196), in
source order.  Line 195 registers `reduce_min` with
`ops::ReduceMaxOpMaker`. -/
def registeredOps : List RegisteredOp :=
  [⟨"reduce_sum", "reduce_sum_grad", ReduceSumOpMaker⟩,
   ⟨"reduce_mean", "reduce_mean_grad", ReduceMeanOpMaker⟩,
   ⟨"reduce_max", "reduce_max_grad", ReduceMaxOpMaker⟩,
   ⟨"reduce_min", "reduce_min_grad", ReduceMaxOpMaker⟩]

/-- The human-readable description registered for an operator name: the
final `comment_` of its maker (the last string its constructor passed to
`AddComment`, which is what the proto retains). -/
def registeredDescription (name : String) : Option (List Char) :=
  (registeredOps.find? fun r => r.opType == name).map fun r => r.maker.comment_

/-- A concrete maker's observable construction behaviour: exactly two
`AddComment` calls, the first being the raw template (which still
contains both placeholders), the second the final `comment_`, which is
the template with `SetComment name word` applied: placeholders gone,
the variant's display name and reduction word present. -/
abbrev variantCommentsOk (m : MakerState) (name word : List Char) : Prop :=
  m.comments = [commentTemplate, m.comment_] ∧
  containsSubstr placeholderOP commentTemplate = true ∧
  containsSubstr placeholderReduce commentTemplate = true ∧
  m.comment_ = SetComment commentTemplate name word ∧
  containsSubstr placeholderOP m.comment_ = false ∧
  containsSubstr placeholderReduce m.comment_ = false ∧
  containsSubstr name m.comment_ = true ∧
  containsSubstr word m.comment_ = true

/-- A prefix is no longer than the list it is a prefix of. -/
theorem isPrefixOf_length_le (p : List Char) :
    ∀ s, p.isPrefixOf s = true → p.length ≤ s.length := by
  induction p with
  | nil => intro s _; simp
  | cons a as ih =>
    intro s h
    cases s with
    | nil => simp [List.isPrefixOf] at h
    | cons b bs =>
      simp only [List.isPrefixOf, Bool.and_eq_true] at h
      simpa using Nat.succ_le_succ (ih bs h.2)

/-- For a NUL-free string, `strlen(s.c_str())` is `s.size()`. -/
theorem cStrlen_of_no_nul : ∀ s : List Char, '\x00' ∉ s → cStrlen s = s.length := by
  intro s
  induction s with
  | nil => intro _; rfl
  | cons c t ih =>
    intro h
    rw [List.mem_cons, not_or] at h
    have hc : ¬ c = '\x00' := fun e => h.1 e.symm
    simp only [cStrlen, List.takeWhile_cons, ne_eq, decide_not] at ih ⊢
    simp [hc, ih h.2]

/-- Unfolding lemma for `firstOccur` on a cons cell. -/
theorem firstOccur_cons (pat : List Char) (c : Char) (t : List Char) :
    firstOccur pat (c :: t)
      = if pat.isPrefixOf (c :: t) = true then some 0
        else (firstOccur pat t).map (· + 1) := rfl

/-- Taking `l₁.length + n` from `l₁ ++ l₂` takes all of `l₁` and `n` of `l₂`. -/
theorem take_len_add (l₁ l₂ : List Char) (n : Nat) :
    (l₁ ++ l₂).take (l₁.length + n) = l₁ ++ l₂.take n := by
  induction l₁ with
  | nil => simp
  | cons a t ih =>
    have e : (a :: t).length + n = (t.length + n) + 1 := by
      simp [List.length_cons]; omega
    rw [e, List.cons_append, List.take_succ_cons, ih, List.cons_append]

/-- Dropping `l₁.length + n` from `l₁ ++ l₂` drops all of `l₁` and `n` of `l₂`. -/
theorem drop_len_add (l₁ l₂ : List Char) (n : Nat) :
    (l₁ ++ l₂).drop (l₁.length + n) = l₂.drop n := by
  induction l₁ with
  | nil => simp
  | cons a t ih =>
    have e : (a :: t).length + n = (t.length + n) + 1 := by
      simp [List.length_cons]; omega
    rw [e, List.cons_append, List.drop_succ_cons, ih]

/-- An occurrence of a nonempty `pat` at index `p` fits inside `s`. -/
theorem firstOccur_some_le (pat : List Char) (hne : pat ≠ []) :
    ∀ s p, firstOccur pat s = some p → p + pat.length ≤ s.length := by
  intro s
  induction s with
  | nil => intro p h; simp [firstOccur, hne] at h
  | cons c t ih =>
    intro p h
    rw [firstOccur_cons] at h
    by_cases hpre : pat.isPrefixOf (c :: t) = true
    · rw [if_pos hpre] at h
      have hp := Option.some.inj h
      subst hp
      simpa using isPrefixOf_length_le pat (c :: t) hpre
    · rw [if_neg hpre, Option.map_eq_some'] at h
      obtain ⟨q, hq, rfl⟩ := h
      have := ih q hq
      simp only [List.length_cons]
      omega

/-- If `pat` does not occur in `s`, replace-all leaves `s` unchanged. -/
theorem replaceAll_of_none (pat toS : List Char) (hne : pat ≠ []) :
    ∀ s, firstOccur pat s = none → replaceAll pat toS s = s := by
  intro s
  induction s with
  | nil => intro _; simp [replaceAll]
  | cons c t ih =>
    intro h
    rw [firstOccur_cons] at h
    by_cases hpre : pat.isPrefixOf (c :: t) = true
    · rw [if_pos hpre] at h
      exact Option.noConfusion h
    · rw [if_neg hpre, Option.map_eq_none'] at h
      simp only [replaceAll]
      rw [dif_neg hne, dif_neg hpre, ih h]

/-- Replace-all at the first occurrence: emit the prefix before it, then
the replacement, then recurse on the text after the matched
characters. -/
theorem replaceAll_of_some (pat toS : List Char) (hne : pat ≠ []) :
    ∀ s p, firstOccur pat s = some p →
      replaceAll pat toS s
        = s.take p ++ toS ++ replaceAll pat toS (s.drop (p + pat.length)) := by
  intro s
  induction s with
  | nil => intro p h; simp [firstOccur, hne] at h
  | cons c t ih =>
    intro p h
    rw [firstOccur_cons] at h
    by_cases hpre : pat.isPrefixOf (c :: t) = true
    · rw [if_pos hpre] at h
      have hp := Option.some.inj h
      subst hp
      simp only [replaceAll]
      rw [dif_neg hne, dif_pos hpre]
      simp
    · rw [if_neg hpre, Option.map_eq_some'] at h
      obtain ⟨q, hq, rfl⟩ := h
      simp only [replaceAll]
      rw [dif_neg hne, dif_neg hpre, ih q hq]
      have harr : q + 1 + pat.length = (q + pat.length) + 1 := by omega
      rw [harr, List.take_succ_cons, List.drop_succ_cons]
      simp [List.append_assoc]

/-- Invariant of the `Replace` loop for nonempty NUL-free `from` and
NUL-free `to`: with the string split as finished prefix `done` ++
unscanned `tail` and the current find result relative to `tail`, the
loop terminates within `tail.length + 1` iterations and produces `done`
followed by the left-to-right replace-all of `tail`. -/
theorem replaceLoop_run (fromStr toStr : List Char) (hne : fromStr ≠ [])
    (hf : cStrlen fromStr = fromStr.length) (ht : cStrlen toStr = toStr.length) :
    ∀ fuel tail done, tail.length < fuel →
      replaceLoop fromStr toStr fuel (done ++ tail)
        ((firstOccur fromStr tail).map (· + done.length))
        = some (done ++ replaceAll fromStr toStr tail) := by
  intro fuel
  induction fuel with
  | zero => intro tail done h; omega
  | succ n ih =>
    intro tail done h
    have hfpos : 0 < fromStr.length := List.length_pos.mpr hne
    cases hOcc : firstOccur fromStr tail with
    | none =>
      simp [replaceLoop, replaceAll_of_none fromStr toStr hne tail hOcc]
    | some p =>
      have hlen := firstOccur_some_le fromStr hne tail p hOcc
      have hple : p ≤ tail.length := by omega
      simp only [Option.map_some', replaceLoop]
      have hsrc : strReplaceRange (done ++ tail) (p + done.length) (cStrlen fromStr) toStr
          = (done ++ tail.take p ++ toStr) ++ tail.drop (p + fromStr.length) := by
        unfold strReplaceRange
        rw [hf]
        have e1 : p + done.length = done.length + p := by omega
        have e2 : p + done.length + fromStr.length
            = done.length + (p + fromStr.length) := by omega
        rw [e2, drop_len_add, e1, take_len_add]
      rw [hsrc]
      have hstart : p + done.length + cStrlen toStr
          = (done ++ tail.take p ++ toStr).length := by
        simp [ht, List.length_append, List.length_take]
        omega
      rw [hstart]
      have hfind : findFrom ((done ++ tail.take p ++ toStr) ++ tail.drop (p + fromStr.length))
            fromStr ((done ++ tail.take p ++ toStr).length)
          = (firstOccur fromStr (tail.drop (p + fromStr.length))).map
              (· + (done ++ tail.take p ++ toStr).length) := by
        unfold findFrom
        have := drop_len_add (done ++ tail.take p ++ toStr)
          (tail.drop (p + fromStr.length)) 0
        simp only [Nat.add_zero, List.drop_zero] at this
        rw [this]
      rw [hfind]
      have htail' : (tail.drop (p + fromStr.length)).length < n := by
        simp only [List.length_drop]
        omega
      rw [ih (tail.drop (p + fromStr.length)) (done ++ tail.take p ++ toStr) htail']
      rw [replaceAll_of_some fromStr toStr hne tail p hOcc]
      simp [List.append_assoc]

/-- C9 counterexample: the claim as stated quantifies over every
non-empty `from` and every `to`, but `Replace` computes `len_from` and
`len_to` with `strlen`, which stops at NUL bytes.  With
`src = from = "\x00a"` (non-empty) and `to = ""`, `strlen` gives
`len_from = len_to = 0`, so each iteration replaces 0 characters at
position 0 with the empty string and searches again from position 0:
the loop state never changes and the loop never terminates — for every
fuel the loop is still running. -/
theorem c9_cex_nul_in_from_diverges :
    ¬ ∃ (fuel : Nat) (r : List Char),
        Replace fuel ['\x00', 'a'] ['\x00', 'a'] [] = some r := by
  have key : ∀ fuel,
      replaceLoop ['\x00', 'a'] [] fuel ['\x00', 'a'] (some 0) = none := by
    intro fuel
    induction fuel with
    | zero => rfl
    | succ n ih => exact ih
  rintro ⟨fuel, r, h⟩
  have hinit : Replace fuel ['\x00', 'a'] ['\x00', 'a'] []
      = replaceLoop ['\x00', 'a'] [] fuel ['\x00', 'a'] (some 0) := rfl
  rw [hinit, key fuel] at h
  exact Option.noConfusion h

/-- C9 (amended): for every `src`, every non-empty `from` and every
`to`, provided `from` and `to` contain no NUL character (so the
`strlen`-computed lengths agree with the string sizes), the `Replace`
loop terminates — within `src.length + 1` iterations — and replaces
each non-overlapping occurrence of `from` in `src` left-to-right with
`to` exactly once, resuming each search just past the inserted text, so
occurrences of `from` inside an inserted `to` are never rescanned. -/
theorem replace_terminates_and_substitutes (src fromStr toStr : List Char)
    (hne : fromStr ≠ []) (hfn : '\x00' ∉ fromStr) (htn : '\x00' ∉ toStr)
    (fuel : Nat) (hfuel : src.length < fuel) :
    Replace fuel src fromStr toStr = some (replaceAll fromStr toStr src) := by
  have hf := cStrlen_of_no_nul fromStr hfn
  have ht := cStrlen_of_no_nul toStr htn
  have h := replaceLoop_run fromStr toStr hne hf ht fuel src [] hfuel
  simpa [Replace, findFrom] using h

/-- C9 witness: replacing "ab" by "abab" (a replacement containing the
pattern) in "xabab" terminates and substitutes both original
occurrences, never rescanning the inserted text. -/
theorem c9_witness :
    ("ab".toList ≠ ([] : List Char)) ∧
    Replace 6 "xabab".toList "ab".toList "abab".toList
      = some (replaceAll "ab".toList "abab".toList "xabab".toList) :=
  ⟨by decide,
   replace_terminates_and_substitutes "xabab".toList "ab".toList "abab".toList
     (by decide) (by decide) (by decide) 6 (by decide)⟩

/-- C1: the claim says forward shape inference raises a validation error
for every normalized `dim` outside `[0, rank)`, in particular for
`dim < -rank(X)`.  The code only checks `dim < x_rank` and has no lower
bound check: at `x_dims = [4,3,2]`, `dim = -5` (normalized `dim = -2`)
every `PADDLE_ENFORCE` passes and the inference reaches an out-of-bounds
`dims_vector` access (undefined behavior) instead of raising the
validation error its own error message and attribute documentation
promise. -/
theorem c1_negative_normalized_dim_not_rejected :
    reduceOpInferShape ⟨some [4, 3, 2], true, -5, false⟩
      = ⟨Outcome.undefinedBehavior, []⟩ := by
  decide

/-- C2: the description registered for `reduce_min`.  `REGISTER_OP` at
reduce_op.cc line 195 passes `ops::ReduceMaxOpMaker`, not
`ops::ReduceMinOpMaker`, so the description registered for `reduce_min`
contains "ReduceMax" and "max" and contains neither "ReduceMin" nor
"min" — contradicting the claim that each operator is registered with
its own variant's maker. -/
theorem c2_reduce_min_description_uses_max :
    (registeredDescription "reduce_min").map
        (fun d => (containsSubstr "ReduceMin".toList d, containsSubstr "min".toList d,
                   containsSubstr "ReduceMax".toList d, containsSubstr "max".toList d))
      = some (false, false, true, true) := by
  decide

/-- C3: for a valid forward invocation (bindings present, rank in 1..6,
normalized `dim` in `[0, rank)`), inference succeeds and resizes `Out`
to `x_dims` with position `dim` set to 1 when `keep_dim` is true or the
rank is 1, and to `x_dims` with the element at `dim` removed
otherwise. -/
theorem c3_forward_out_dims (x_dims : List Int) (d : Int) (kd : Bool)
    (_h1 : 1 ≤ x_dims.length) (h6 : x_dims.length ≤ 6)
    (h0 : 0 ≤ normDim x_dims.length d)
    (hlt : normDim x_dims.length d < (x_dims.length : Int)) :
    (reduceOpInferShape ⟨some x_dims, true, d, kd⟩).outcome = Outcome.ok ∧
    resizedDims (reduceOpInferShape ⟨some x_dims, true, d, kd⟩) "Out"
      = some (if kd || x_dims.length == 1
              then x_dims.set (normDim x_dims.length d).toNat 1
              else x_dims.eraseIdx (normDim x_dims.length d).toNat) := by
  have hneg : ¬ normDim x_dims.length d < 0 := not_lt.mpr h0
  simp [reduceOpInferShape, h6, hlt, hneg, resizedDims]

/-- C3 witness: `x_dims = [4,3,2]`, `dim = -1`, `keep_dim = true` gives
output dims `[4,3,1]`. -/
theorem c3_witness :
    (reduceOpInferShape ⟨some [4, 3, 2], true, -1, true⟩).outcome = Outcome.ok ∧
    resizedDims (reduceOpInferShape ⟨some [4, 3, 2], true, -1, true⟩) "Out"
      = some [4, 3, 1] := by
  have h := c3_forward_out_dims [4, 3, 2] (-1) true (by decide) (by decide)
    (by decide) (by decide)
  exact ⟨h.1, by rw [h.2]; decide⟩

/-- C4: for a valid gradient invocation (bindings present, rank ≤ 6,
normalized `dim` in `[0, rank)`, gradient output present), the result is
independent of `keep_dim`, inference succeeds, and X@GRAD is resized to
exactly `x_dims`. -/
theorem c4_grad_dims (x_dims : List Int) (d : Int) (kd kd' : Bool)
    (h6 : x_dims.length ≤ 6) (_h0 : 0 ≤ normDim x_dims.length d)
    (hlt : normDim x_dims.length d < (x_dims.length : Int)) :
    reduceGradOpInferShape ⟨some x_dims, true, true, d, kd⟩
      = reduceGradOpInferShape ⟨some x_dims, true, true, d, kd'⟩ ∧
    (reduceGradOpInferShape ⟨some x_dims, true, true, d, kd⟩).outcome = Outcome.ok ∧
    resizedDims (reduceGradOpInferShape ⟨some x_dims, true, true, d, kd⟩) "X@GRAD"
      = some x_dims := by
  refine ⟨rfl, ?_⟩
  simp [reduceGradOpInferShape, h6, hlt, resizedDims]

/-- C4 witness: `x_dims = [4,3,2]`, `dim = 1`, both `keep_dim` values:
gradient dims are `[4,3,2]`. -/
theorem c4_witness :
    reduceGradOpInferShape ⟨some [4, 3, 2], true, true, 1, false⟩
      = reduceGradOpInferShape ⟨some [4, 3, 2], true, true, 1, true⟩ ∧
    (reduceGradOpInferShape ⟨some [4, 3, 2], true, true, 1, false⟩).outcome = Outcome.ok ∧
    resizedDims (reduceGradOpInferShape ⟨some [4, 3, 2], true, true, 1, false⟩) "X@GRAD"
      = some [4, 3, 2] :=
  c4_grad_dims [4, 3, 2] 1 false true (by decide) (by decide) (by decide)

/-- C5: for a valid forward invocation, the input's LoD is shared with
`Out` exactly when the normalized reduction axis is not 0. -/
theorem c5_lod_shared_iff (x_dims : List Int) (d : Int) (kd : Bool)
    (h6 : x_dims.length ≤ 6) (h0 : 0 ≤ normDim x_dims.length d)
    (hlt : normDim x_dims.length d < (x_dims.length : Int)) :
    Effect.shareLoD "X" "Out" ∈ (reduceOpInferShape ⟨some x_dims, true, d, kd⟩).effects
      ↔ normDim x_dims.length d ≠ 0 := by
  have hneg : ¬ normDim x_dims.length d < 0 := not_lt.mpr h0
  have hpos : 0 < x_dims.length := by exact_mod_cast lt_of_le_of_lt h0 hlt
  have hne : x_dims ≠ [] := List.length_pos.mp hpos
  by_cases hz : normDim x_dims.length d = 0 <;>
    simp [reduceOpInferShape, h6, hlt, hneg, hz, hne]

/-- C5 witness: reducing `[4,3,2]` along axis 1 shares the LoD; reducing
along axis 0 (theorem applied in the reverse direction) would not. -/
theorem c5_witness :
    Effect.shareLoD "X" "Out"
      ∈ (reduceOpInferShape ⟨some [4, 3, 2], true, 1, false⟩).effects :=
  (c5_lod_shared_iff [4, 3, 2] 1 false (by decide) (by decide) (by decide)).mpr
    (by decide)

/-- C6: whenever forward or gradient shape inference fails a
`PADDLE_ENFORCE` check (raises the validation error), its effect trace
is empty — in particular no tensor has been resized, since every check
precedes every `Resize` / `ShareLoD` call. -/
theorem c6_no_effects_on_enforce_failure (fctx : ForwardCtx) (gctx : GradCtx) :
    ((reduceOpInferShape fctx).outcome.isEnforceFailed = true →
      (reduceOpInferShape fctx).effects = []) ∧
    ((reduceGradOpInferShape gctx).outcome.isEnforceFailed = true →
      (reduceGradOpInferShape gctx).effects = []) := by
  constructor
  · rcases fctx with ⟨x, o, d, k⟩
    cases x with
    | none => intro _; rfl
    | some xd =>
      simp only [reduceOpInferShape]
      split_ifs <;> simp [Outcome.isEnforceFailed]
  · rcases gctx with ⟨x, og, xg, d, k⟩
    cases x with
    | none => intro _; rfl
    | some xd =>
      simp only [reduceGradOpInferShape]
      split_ifs <;> simp [Outcome.isEnforceFailed]

/-- C6 witness: a forward call with `X` missing and a gradient call with
rank 7 both fail validation with an empty effect trace. -/
theorem c6_witness :
    (reduceOpInferShape ⟨none, true, 0, false⟩).effects = [] ∧
    (reduceGradOpInferShape ⟨some [1, 1, 1, 1, 1, 1, 1], true, true, 0, false⟩).effects
      = [] :=
  ⟨(c6_no_effects_on_enforce_failure ⟨none, true, 0, false⟩
      ⟨some [1, 1, 1, 1, 1, 1, 1], true, true, 0, false⟩).1 (by decide),
   (c6_no_effects_on_enforce_failure ⟨none, true, 0, false⟩
      ⟨some [1, 1, 1, 1, 1, 1, 1], true, true, 0, false⟩).2 (by decide)⟩

/-- C7: with the variable bindings present, forward and gradient shape
inference fail a `PADDLE_ENFORCE` check on exactly the same
`(x_dims, dim)` configurations — both perform the same rank-limit
check, negative-`dim` normalization and `dim < rank` check. -/
theorem c7_forward_grad_same_rejection (x_dims : List Int) (d : Int) (kd xg : Bool) :
    (reduceOpInferShape ⟨some x_dims, true, d, kd⟩).outcome.isEnforceFailed
      = (reduceGradOpInferShape ⟨some x_dims, true, xg, d, kd⟩).outcome.isEnforceFailed := by
  simp only [reduceOpInferShape, reduceGradOpInferShape]
  split_ifs <;> rfl

/-- C8 counterexample: a `ReduceGradOp::InferShape` invocation whose
X@GRAD output is absent but whose input has rank 7 does not complete
successfully — the rank check still runs and raises the validation
error, refuting "every invocation with the gradient output absent
completes successfully as a no-op". -/
theorem c8_cex_absent_grad_can_still_fail :
    (reduceGradOpInferShape ⟨some [1, 1, 1, 1, 1, 1, 1], true, false, 0, false⟩).outcome
      = Outcome.enforceFailed "Tensors with rank at most 6 are supported." := by
  decide

/-- C8 (amended): when the validation checks pass (bindings present,
rank ≤ 6, normalized `dim < rank`) and the X@GRAD output variable is
absent, gradient shape inference completes successfully with no effects:
it resizes no tensor and produces no output. -/
theorem c8_absent_grad_noop (x_dims : List Int) (d : Int) (kd : Bool)
    (h6 : x_dims.length ≤ 6)
    (hlt : normDim x_dims.length d < (x_dims.length : Int)) :
    reduceGradOpInferShape ⟨some x_dims, true, false, d, kd⟩ = ⟨Outcome.ok, []⟩ := by
  simp [reduceGradOpInferShape, h6, hlt]

/-- C8 witness: a valid no-op gradient inference at `x_dims = [4,3,2]`,
`dim = 0`. -/
theorem c8_witness :
    reduceGradOpInferShape ⟨some [4, 3, 2], true, false, 0, false⟩
      = ⟨Outcome.ok, []⟩ :=
  c8_absent_grad_noop [4, 3, 2] 0 false (by decide) (by decide)

/-- C10: each of the four concrete makers calls `AddComment` exactly
twice — first (from the base `ReduceOpMaker` constructor) the raw
template still containing the `\x7bReduceOP\x7d` and `\x7breduce\x7d`
placeholders, then (from the subclass constructor) the substituted text,
which has no placeholders left and contains the variant's display name
and reduction word. -/
theorem c10_each_maker_adds_comment_twice :
    variantCommentsOk ReduceSumOpMaker "ReduceSum".toList "sum".toList ∧
    variantCommentsOk ReduceMeanOpMaker "ReduceMean".toList "mean".toList ∧
    variantCommentsOk ReduceMaxOpMaker "ReduceMax".toList "max".toList ∧
    variantCommentsOk ReduceMinOpMaker "ReduceMin".toList "min".toList := by
  decide

end ReduceOpCc
